import Mathlib

/-
  Verification of the prosemirror-typerighter core against its source.

  The development shallowly embeds the three source files:
  * the diff patcher (getReplacementFragmentsFromReplacement /
    applyFragmentToTransaction),
  * the Typerighter service adapter (createTyperighterAdapter), and
  * the validation plugin reducer (validationPluginReducer and its
    action handlers).

  Strings are modelled as lists of characters, the ProseMirror document
  as explicit text plus block ranges, and the external character-diff
  library as a list of equal/removed/added runs (it is a black box in
  the source, so theorems quantify over every run list that is a valid
  diff of the two texts).  Helper modules of the repository that are
  not part of the given sources (utils/range, utils/decoration) are
  modelled from the specification; their doc comments say so.
-/

namespace Typerighter

/-! ## Diff patcher (src/ts/utils/prosemirror.ts) -/

/-- A run produced by the external character diff (`jsDiff.diffChars`).
The library is a black box; a run is one of equal / removed / added,
carrying the characters of the run.  `count` in the source is the
number of characters, i.e. the length of `value`. -/
inductive DiffRun
  | equal (value : List Char)
  | removed (value : List Char)
  | added (value : List Char)
deriving DecidableEq

/-- The characters a run contributes to the original text
(equal and removed runs). -/
def originalOfDiff : List DiffRun → List Char
  | [] => []
  | DiffRun.equal v :: rs => v ++ originalOfDiff rs
  | DiffRun.removed v :: rs => v ++ originalOfDiff rs
  | DiffRun.added _ :: rs => originalOfDiff rs

/-- The characters a run contributes to the replacement text
(equal and added runs). -/
def replacementOfDiff : List DiffRun → List Char
  | [] => []
  | DiffRun.equal v :: rs => v ++ replacementOfDiff rs
  | DiffRun.removed _ :: rs => replacementOfDiff rs
  | DiffRun.added v :: rs => v ++ replacementOfDiff rs

/-- Defunctionalisation of the `getMarks` closures built inside
`getReplacementFragmentsFromReplacement`.  The source stores a function
of the transaction; the two closures it ever builds are determined by
the positions they will query, recorded here. -/
inductive GetMarks
  | lastChar (newFrom : Nat)
  | spanRange (newFrom newTo : Nat)
deriving DecidableEq

/-- Evaluate a mark resolver against a document's `marksAcross`
primitive, mirroring the two closures in the source: the `lastChar`
resolver reads the marks across the character immediately before the
insertion point; the `spanRange` resolver reads the marks across the
full original range being replaced. -/
def GetMarks.eval (marksAcross : Nat → Nat → List String) : GetMarks → List String
  | GetMarks.lastChar newFrom => marksAcross (newFrom - 1) newFrom
  | GetMarks.spanRange newFrom newTo => marksAcross newFrom newTo

/-- `ISuggestionPatch`: tagged DELETE / INSERT patch from the source. -/
inductive ISuggestionPatch
  | DELETE (fromPos toPos : Nat)
  | INSERT (fromPos toPos : Nat) (text : List Char) (getMarks : GetMarks)
deriving DecidableEq

def ISuggestionPatch.fromPos : ISuggestionPatch → Nat
  | ISuggestionPatch.DELETE f _ => f
  | ISuggestionPatch.INSERT f _ _ _ => f

def ISuggestionPatch.toPos : ISuggestionPatch → Nat
  | ISuggestionPatch.DELETE _ t => t
  | ISuggestionPatch.INSERT _ t _ _ => t

def ISuggestionPatch.isLastCharMarks : ISuggestionPatch → Bool
  | ISuggestionPatch.INSERT _ _ _ (GetMarks.lastChar _) => true
  | _ => false

/-- The accumulator of the `reduce` in
`getReplacementFragmentsFromReplacement`. -/
structure ReduceState where
  fragments : List ISuggestionPatch
  currentPos : Nat
deriving DecidableEq

/-- One step of the `patches.reduce` callback in
`getReplacementFragmentsFromReplacement` (source lines 128-199):
runs with no characters are ignored; an equal run advances the cursor;
a removed run emits a DELETE over `[fromPos+currentPos,
fromPos+currentPos+count)` leaving the cursor; an added run emits an
INSERT at `fromPos+currentPos` with `to = from + count`, choosing the
mark resolver by whether the last emitted fragment's `to` is strictly
below the new `from` (`isInsertion` in the source). -/
def reduceStep (fromPos : Nat) (acc : ReduceState) (patch : DiffRun) : ReduceState :=
  match patch with
  | DiffRun.equal v =>
      if v.length = 0 then acc
      else { acc with currentPos := acc.currentPos + v.length }
  | DiffRun.removed v =>
      if v.length = 0 then acc
      else
        let newFrom := fromPos + acc.currentPos
        let newTo := newFrom + v.length
        { acc with fragments := acc.fragments ++ [ISuggestionPatch.DELETE newFrom newTo] }
  | DiffRun.added v =>
      if v.length = 0 then acc
      else
        let newFrom := fromPos + acc.currentPos
        let newTo := newFrom + v.length
        let isInsertion : Bool :=
          match acc.fragments.getLast? with
          | some prevFragment => decide (ISuggestionPatch.toPos prevFragment < newFrom)
          | none => false
        let gm := if isInsertion then GetMarks.lastChar newFrom
                  else GetMarks.spanRange newFrom newTo
        { fragments := acc.fragments ++ [ISuggestionPatch.INSERT newFrom newTo v gm],
          currentPos := acc.currentPos + v.length }

/-- `getReplacementFragmentsFromReplacement` (source lines 117-207).
The source computes `currentText = tr.doc.textBetween(from, to)` and
hands `diffChars(currentText, replacement)` to the reduce; the diff
library being external, the embedding takes the run list as argument
and theorems quantify over valid diffs. -/
def getReplacementFragmentsFromReplacement (fromPos : Nat) (patches : List DiffRun) : List ISuggestionPatch :=
  (patches.foldl (reduceStep fromPos) { fragments := [], currentPos := 0 }).fragments

/-- Text-level insertion, the embedding of `tr.insert(pos, node)`. -/
def insertAt (doc : List Char) (pos : Nat) (text : List Char) : List Char :=
  doc.take pos ++ text ++ doc.drop pos

/-- Text-level deletion, the embedding of `tr.delete(from, to)`. -/
def deleteRange (doc : List Char) (fromPos toPos : Nat) : List Char :=
  doc.take fromPos ++ doc.drop toPos

/-- `applyFragmentToTransaction` (source lines 214-225), projected to
the document text (marks do not change the character content). -/
def applyFragmentToTransaction (doc : List Char) : ISuggestionPatch → List Char
  | ISuggestionPatch.INSERT fromPos _ text _ => insertAt doc fromPos text
  | ISuggestionPatch.DELETE fromPos toPos => deleteRange doc fromPos toPos

/-- Apply a patch list in the order produced, as the source requires. -/
def applyFragmentsToTransaction (doc : List Char) (patches : List ISuggestionPatch) : List Char :=
  patches.foldl applyFragmentToTransaction doc

/-- The patches the reduce emits from a given cursor position and
last-emitted-patch `to`, isolated from the accumulator so the fold can
be reasoned about by induction. -/
def emitPatches (fromPos : Nat) : Nat → Option Nat → List DiffRun → List ISuggestionPatch
  | _, _, [] => []
  | c, prevTo, DiffRun.equal v :: rs =>
      if v.length = 0 then emitPatches fromPos c prevTo rs
      else emitPatches fromPos (c + v.length) prevTo rs
  | c, prevTo, DiffRun.removed v :: rs =>
      if v.length = 0 then emitPatches fromPos c prevTo rs
      else ISuggestionPatch.DELETE (fromPos + c) (fromPos + c + v.length)
        :: emitPatches fromPos c (some (fromPos + c + v.length)) rs
  | c, prevTo, DiffRun.added v :: rs =>
      if v.length = 0 then emitPatches fromPos c prevTo rs
      else
        let isInsertion : Bool :=
          match prevTo with
          | some t => decide (t < fromPos + c)
          | none => false
        let gm := if isInsertion then GetMarks.lastChar (fromPos + c)
                  else GetMarks.spanRange (fromPos + c) (fromPos + c + v.length)
        ISuggestionPatch.INSERT (fromPos + c) (fromPos + c + v.length) v gm
          :: emitPatches fromPos (c + v.length) (some (fromPos + c + v.length)) rs

/-- The mark-inheritance policy in the words of the specification:
an insertion's resolver is the last-character one exactly when the
immediately preceding emitted patch is an insertion whose `to` equals
this insertion's `from`.  (Refinement-style definition following the
spec, to be compared against the source's behaviour.) -/
def specMarkPolicyFrom : Option ISuggestionPatch → List ISuggestionPatch → Bool
  | _, [] => true
  | prev, p :: rest =>
      (match p with
       | ISuggestionPatch.INSERT newFrom _ _ _ =>
           let specCond : Bool :=
             match prev with
             | some (ISuggestionPatch.INSERT _ prevTo _ _) => decide (prevTo = newFrom)
             | _ => false
           ISuggestionPatch.isLastCharMarks p == specCond
       | _ => true)
      && specMarkPolicyFrom (some p) rest

/-- The spec's mark policy over a whole patch list. -/
def specMarkPolicy (patches : List ISuggestionPatch) : Bool :=
  specMarkPolicyFrom none patches

/-! ## Validation plugin data model (src/ts/state.ts part of the sources) -/

/-- `Range`: half-open `[from, to)` character offsets. -/
structure Range where
  fromPos : Nat
  toPos : Nat
deriving DecidableEq

/-- Visual marker kinds: the source's `DECORATION_DIRTY`,
`DECORATION_INFLIGHT` debug markers and the result markers. -/
inductive DecorationType
  | dirty
  | inflight
  | validation
deriving DecidableEq

/-- A decoration attached to a document range.  The editor's
`DecorationSet` is modelled as a list of decorations. -/
structure Decoration where
  fromPos : Nat
  toPos : Nat
  dtype : DecorationType
deriving DecidableEq

/-- Modelled from the spec: §3 Edit Operation — an atomic replacement
of `[opFrom, opTo)` by content of length `insertLength`, with a
deterministic position-mapping function. -/
structure EditOp where
  opFrom : Nat
  opTo : Nat
  insertLength : Nat
deriving DecidableEq

/-- The document, as far as the reducer consumes it: its text and the
ranges of its leaf block nodes. -/
structure Doc where
  text : List Char
  blocks : List Range
deriving DecidableEq

/-- A transaction: the document it produces, its monotonic id
(`tr.time` in the source) and its edit operations. -/
structure Transaction where
  doc : Doc
  time : Nat
  steps : List EditOp
deriving DecidableEq

/-- The editor's `textBetween` primitive on the modelled document. -/
def textBetween (doc : Doc) (fromPos toPos : Nat) : List Char :=
  (doc.text.drop fromPos).take (toPos - fromPos)

/-- `ValidationInput`: a snapshot of text and its range. -/
structure ValidationInput where
  str : List Char
  fromPos : Nat
  toPos : Nat
deriving DecidableEq

/-- `ValidationOutput`, as far as the reducer consumes it: identity and
live range of a finding. -/
structure ValidationOutput where
  id : String
  fromPos : Nat
  toPos : Nat
deriving DecidableEq

/-- `ValidationResponse`: outputs plus the id of the request
(transaction id at dispatch) they answer. -/
structure ValidationResponse where
  validationOutputs : List ValidationOutput
  id : Nat
deriving DecidableEq

/-- `ValidationError`: the failed input, the request id, the message. -/
structure ValidationError where
  validationInput : ValidationInput
  id : Nat
  message : String
deriving DecidableEq

/-- The in-flight request descriptor. -/
structure ValidationInFlight where
  validationInputs : List ValidationInput
  id : Nat
deriving DecidableEq

/-- `StateHoverInfo`: geometry of the hovered span. -/
structure StateHoverInfo where
  offsetLeft : Int
  offsetTop : Int
  left : Int
  top : Int
  height : Int
  mouseOffsetX : Int
  mouseOffsetY : Int
  heightOfSingleLine : Int
deriving DecidableEq

/-- `PluginState` with the source's thirteen fields. -/
structure PluginState where
  debug : Bool
  initialThrottle : Nat
  currentThrottle : Nat
  maxThrottle : Nat
  decorations : List Decoration
  currentValidations : List ValidationOutput
  dirtiedRanges : List Range
  hoverId : Option String
  hoverInfo : Option StateHoverInfo
  trHistory : List Transaction
  validationPending : Bool
  validationInFlight : Option ValidationInFlight
  error : Option String
deriving DecidableEq

/-- The closed sum of the five lifecycle actions. -/
inductive Action
  | newHoverId (hoverId : Option String) (hoverInfo : Option StateHoverInfo)
  | validationRequestPending
  | validationRequestStart
  | validationRequestSuccess (response : ValidationResponse)
  | validationRequestError (validationError : ValidationError)
deriving DecidableEq

/-! ## Helpers of utils/range and utils/decoration

These modules are imported by the reducer but are not among the given
sources; they are modelled from the specification. -/

/-- Modelled from the spec: §3/§4.1 — `map(pos, bias)` of an edit
operation: positions before the replaced range are unchanged, positions
after it shift by the length change, and positions inside resolve to
the start of the inserted content on a start bias and to its end on an
end bias. -/
def mapPos (op : EditOp) (pos : Nat) (bias : Int) : Nat :=
  if pos < op.opFrom then pos
  else if op.opTo < pos then pos - (op.opTo - op.opFrom) + op.insertLength
  else if bias < 0 then op.opFrom
  else op.opFrom + op.insertLength

/-- Modelled from the spec: §4.1 — a range maps its `from` with a bias
toward the start of inserted content and its `to` with a bias toward
the end, through each edit operation in order. -/
def mapRangeThroughEditOps (r : Range) (ops : List EditOp) : Range :=
  ops.foldl
    (fun r op => { fromPos := mapPos op r.fromPos (-1), toPos := mapPos op r.toPos 1 }) r

/-- Modelled from the spec: §4.1 `mapRangeThroughTransactions` — select
the transactions with id greater than the given id (history is kept in
increasing id order), apply their edit operations in order, and filter
out ranges that collapsed to empty (§7: a fully deleted range yields an
empty range, filtered rather than erroring). -/
def mapRangeThroughTransactions (ranges : List Range) (time : Nat)
    (trHistory : List Transaction) : List Range :=
  (ranges.map (fun r =>
      mapRangeThroughEditOps r
        (((trHistory.filter (fun tr => decide (time < tr.time))).map
            Transaction.steps).flatten))).filter
    (fun r => decide (r.fromPos < r.toPos))

/-- Insert a range into a list sorted by `fromPos`. -/
def insertRangeSorted (r : Range) : List Range → List Range
  | [] => [r]
  | x :: xs =>
      if r.fromPos ≤ x.fromPos then r :: x :: xs
      else x :: insertRangeSorted r xs

/-- Sort ranges by their `fromPos`. -/
def sortRangesByFrom (ranges : List Range) : List Range :=
  ranges.foldr insertRangeSorted []

/-- Left-to-right merge of a sorted range list, carrying the range
being grown: a range whose `from` is at or below the carried range's
`to` merges into it. -/
def mergeAccum (a : Range) : List Range → List Range
  | [] => [a]
  | b :: rest =>
      if b.fromPos ≤ a.toPos then
        mergeAccum { fromPos := a.fromPos, toPos := max a.toPos b.toPos } rest
      else a :: mergeAccum b rest

/-- Left-to-right merge of a sorted range list: a range whose `from` is
at or below the previous range's `to` merges into it. -/
def mergeSortedRanges : List Range → List Range
  | [] => []
  | a :: rest => mergeAccum a rest

/-- Modelled from the spec: §4.2 `mergeRanges` — sort by `from`, then
scan left to right merging overlapping or touching ranges. -/
def mergeRanges (ranges : List Range) : List Range :=
  mergeSortedRanges (sortRangesByFrom ranges)

/-- Modelled from the spec: §4.5 — the range of a validation input. -/
def validationInputToRange (input : ValidationInput) : Range :=
  { fromPos := input.fromPos, toPos := input.toPos }

/-- Modelled from the spec: §4.3 `getRangesOfParentBlockNodes` — for
each input range collect the document blocks overlapping it, then merge
the union via `mergeRanges`. -/
def getRangesOfParentBlockNodes (ranges : List Range) (doc : Doc) : List Range :=
  mergeRanges
    ((ranges.map (fun r =>
        doc.blocks.filter (fun b =>
          decide (b.fromPos ≤ r.toPos) && decide (r.fromPos ≤ b.toPos)))).flatten)

/-- Modelled from the spec: utils/decoration — a debug marker over a
range, dirty or in-flight.  The source calls this with `false` for the
second argument when creating in-flight markers. -/
def createDebugDecorationFromRange (r : Range) (isDirty : Bool) : Decoration :=
  { fromPos := r.fromPos, toPos := r.toPos,
    dtype := if isDirty then DecorationType.dirty else DecorationType.inflight }

/-- Modelled from the spec: utils/decoration — remove the decorations
of the given kind lying within any of the given ranges. -/
def removeValidationDecorationsFromRanges (decorations : List Decoration)
    (ranges : List Range) (t : DecorationType) : List Decoration :=
  decorations.filter (fun d =>
    !(decide (d.dtype = t)
      && ranges.any (fun r =>
           decide (r.fromPos ≤ d.fromPos) && decide (d.toPos ≤ r.toPos))))

/-- Modelled from the spec: §4.5 RequestSuccess — result markers
replace the previous result markers; one marker per current
validation. -/
def getNewDecorationsForCurrentValidations (currentValidations : List ValidationOutput)
    (decorations : List Decoration) (_doc : Doc) : List Decoration :=
  decorations.filter (fun d => decide (d.dtype ≠ DecorationType.validation))
    ++ currentValidations.map (fun v =>
        { fromPos := v.fromPos, toPos := v.toPos, dtype := DecorationType.validation })

/-- Modelled from the spec: §4.5 RequestSuccess — each output's range
is mapped through the history accrued since the response's id; outputs
whose range was fully deleted are dropped; outputs superseding an
existing validation with the same id replace it, others are retained. -/
def mergeOutputsFromValidationResponse (response : ValidationResponse)
    (currentValidations : List ValidationOutput)
    (trHistory : List Transaction) : List ValidationOutput :=
  let mapped :=
    (response.validationOutputs.map (fun v =>
        (mapRangeThroughTransactions [{ fromPos := v.fromPos, toPos := v.toPos }]
            response.id trHistory).map
          (fun r => { id := v.id, fromPos := r.fromPos, toPos := r.toPos : ValidationOutput }))).flatten
  currentValidations.filter (fun c => mapped.all (fun m => decide (m.id ≠ c.id))) ++ mapped

/-! ## Action handlers and reducer (source lines 433-597) -/

/-- `handleNewHoverId` (source lines 467-477). -/
def handleNewHoverId (_tr : Transaction) (state : PluginState)
    (hoverId : Option String) (hoverInfo : Option StateHoverInfo) : PluginState :=
  { state with hoverId := hoverId, hoverInfo := hoverInfo }

/-- `handleValidationRequestPending` (source lines 479-486). -/
def handleValidationRequestPending (_tr : Transaction) (state : PluginState) : PluginState :=
  { state with validationPending := true }

/-- `handleValidationRequestStart` (source lines 491-522): expand the
dirty ranges to block boundaries, snapshot their text from the current
transaction's document, stamp them with `tr.time`, clear the dirty
ranges, clear the pending flag, swap dirty debug markers for in-flight
markers, and record the in-flight descriptor. -/
def handleValidationRequestStart (tr : Transaction) (state : PluginState) : PluginState :=
  let expandedRanges := getRangesOfParentBlockNodes state.dirtiedRanges tr.doc
  let validationInputs : List ValidationInput := expandedRanges.map (fun range =>
    { str := textBetween tr.doc range.fromPos range.toPos,
      fromPos := range.fromPos, toPos := range.toPos })
  let decorations :=
    removeValidationDecorationsFromRanges state.decorations expandedRanges DecorationType.dirty
      ++ expandedRanges.map (fun range => createDebugDecorationFromRange range false)
  { state with
    decorations := decorations,
    dirtiedRanges := [],
    validationPending := false,
    validationInFlight := some { validationInputs := validationInputs, id := tr.time } }

/-- `handleValidationRequestSuccess` (source lines 528-558): when the
response has validation outputs, merge them into the current
validations, rebuild result decorations, drop in-flight markers and
clear the in-flight descriptor; otherwise return the state as it is. -/
def handleValidationRequestSuccess (tr : Transaction) (state : PluginState)
    (response : ValidationResponse) : PluginState :=
  if response.validationOutputs.length ≠ 0 then
    let currentValidations :=
      mergeOutputsFromValidationResponse response state.currentValidations state.trHistory
    let decorations :=
      getNewDecorationsForCurrentValidations currentValidations state.decorations tr.doc
    let decsToRemove :=
      state.decorations.filter (fun d => decide (d.dtype = DecorationType.inflight))
    { state with
      validationInFlight := none,
      currentValidations := currentValidations,
      decorations := decorations.filter (fun d => decide (d ∉ decsToRemove)) }
  else state

/-- `handleValidationRequestError` (source lines 563-597): drop
in-flight markers, map the failed input's range through the history
accrued since the request id, merge the surviving mapped ranges into
the dirty set (adding dirty debug markers over them), clear the
in-flight descriptor and record the error message. -/
def handleValidationRequestError (_tr : Transaction) (state : PluginState)
    (validationError : ValidationError) : PluginState :=
  let decsToRemove :=
    state.decorations.filter (fun d => decide (d.dtype = DecorationType.inflight))
  let dirtiedRanges :=
    mapRangeThroughTransactions [validationInputToRange validationError.validationInput]
      validationError.id state.trHistory
  let decorations := state.decorations.filter (fun d => decide (d ∉ decsToRemove))
  let decorations :=
    if dirtiedRanges.length ≠ 0 then
      decorations ++ dirtiedRanges.map (fun r => createDebugDecorationFromRange r true)
    else decorations
  { state with
    dirtiedRanges :=
      if dirtiedRanges.length ≠ 0 then mergeRanges (state.dirtiedRanges ++ dirtiedRanges)
      else state.dirtiedRanges,
    decorations := decorations,
    validationInFlight := none,
    error := some validationError.message }

/-- `validationPluginReducer` (source lines 433-452). -/
def validationPluginReducer (tr : Transaction) (state : PluginState) : Action → PluginState
  | Action.newHoverId hoverId hoverInfo => handleNewHoverId tr state hoverId hoverInfo
  | Action.validationRequestPending => handleValidationRequestPending tr state
  | Action.validationRequestStart => handleValidationRequestStart tr state
  | Action.validationRequestSuccess response => handleValidationRequestSuccess tr state response
  | Action.validationRequestError validationError =>
      handleValidationRequestError tr state validationError

/-! ## The Typerighter adapter (source lines 233-262) -/

structure TyperighterRule where
  description : String
deriving DecidableEq

structure TyperighterMatch where
  fromPos : Nat
  toPos : Nat
  message : String
  rule : TyperighterRule
  suggestedReplacements : List String
deriving DecidableEq

structure ITypeRighterResponse where
  results : List TyperighterMatch
deriving DecidableEq

structure IValidationInput where
  id : String
  str : String
  fromPos : Nat
  toPos : Nat
deriving DecidableEq

structure IValidationOutput where
  id : String
  str : String
  fromPos : Nat
  toPos : Nat
  annotation : String
  category : String
  suggestions : List String
deriving DecidableEq

/-- `createTyperighterAdapter` (source lines 233-262), its response
handling embedded as a pure function of the HTTP response's status,
status text and parsed JSON body (the fetch transport is external).
A non-200 status throws the source's template-literal error message; a
200 response maps each result, keeping the input's id and offsetting
the result positions by the input's `from` (`category` here embeds the
source's `type: match.rule.description` field). -/
def createTyperighterAdapter (input : IValidationInput) (status : Nat)
    (statusText : String) (response : ITypeRighterResponse) :
    Except String (List IValidationOutput) :=
  if status ≠ 200 then
    Except.error
      ("Error fetching validations. The server responded with status code "
        ++ toString status ++ ": " ++ statusText)
  else
    Except.ok (response.results.map (fun m =>
      { id := input.id,
        str := input.str,
        fromPos := input.fromPos + m.fromPos,
        toPos := input.fromPos + m.toPos,
        annotation := m.message,
        category := m.rule.description,
        suggestions := m.suggestedReplacements }))

/-! ## Theorems -/

/-- The fold in `getReplacementFragmentsFromReplacement` appends to the
accumulator exactly the patches described by `emitPatches`, started at
the accumulator's cursor and last emitted patch. -/
theorem foldl_reduceStep_fragments (fromPos : Nat) (runs : List DiffRun) :
    ∀ acc : ReduceState,
      (runs.foldl (reduceStep fromPos) acc).fragments =
        acc.fragments ++
          emitPatches fromPos acc.currentPos
            (acc.fragments.getLast?.map ISuggestionPatch.toPos) runs := by
  induction runs with
  | nil => intro acc; simp [emitPatches]
  | cons r rs ih =>
    intro acc
    rw [List.foldl_cons, ih]
    cases r with
    | equal v =>
      by_cases hv : v.length = 0
      · simp [reduceStep, hv, emitPatches]
      · simp [reduceStep, hv, emitPatches]
    | removed v =>
      by_cases hv : v.length = 0
      · simp [reduceStep, hv, emitPatches]
      · simp [reduceStep, hv, emitPatches, List.getLast?_concat, ISuggestionPatch.toPos]
    | added v =>
      by_cases hv : v.length = 0
      · simp [reduceStep, hv, emitPatches]
      · cases h : acc.fragments.getLast? with
        | none =>
          simp [reduceStep, hv, emitPatches, h, List.getLast?_concat, ISuggestionPatch.toPos]
        | some prev =>
          simp [reduceStep, hv, emitPatches, h, List.getLast?_concat, ISuggestionPatch.toPos]

/-- Applying the patches emitted from cursor `c` to a document whose
text from offset `fromPos + c` onwards is the not-yet-consumed original
text rewrites that text into the replacement text of the runs. -/
theorem emitPatches_roundtrip (fromPos : Nat) (runs : List DiffRun) :
    ∀ (c : Nat) (prevTo : Option Nat) (front post : List Char),
      front.length = fromPos + c →
      applyFragmentsToTransaction (front ++ (originalOfDiff runs ++ post))
          (emitPatches fromPos c prevTo runs)
        = front ++ (replacementOfDiff runs ++ post) := by
  induction runs with
  | nil =>
    intro c prevTo front post hfront
    simp [emitPatches, applyFragmentsToTransaction, originalOfDiff, replacementOfDiff]
  | cons r rs ih =>
    intro c prevTo front post hfront
    cases r with
    | equal v =>
      by_cases hv : v.length = 0
      · have hv' : v = [] := List.length_eq_zero.mp hv
        subst hv'
        simpa [originalOfDiff, replacementOfDiff, emitPatches] using
          ih c prevTo front post hfront
      · have h2 : (front ++ v).length = fromPos + (c + v.length) := by
          simp [hfront, Nat.add_assoc]
        have h3 := ih (c + v.length) prevTo (front ++ v) post h2
        simp only [List.append_assoc] at h3
        simpa [originalOfDiff, replacementOfDiff, emitPatches, hv] using h3
    | removed v =>
      by_cases hv : v.length = 0
      · have hv' : v = [] := List.length_eq_zero.mp hv
        subst hv'
        simpa [originalOfDiff, replacementOfDiff, emitPatches] using
          ih c prevTo front post hfront
      · have hTake : (front ++ (v ++ (originalOfDiff rs ++ post))).take (fromPos + c) = front :=
          List.take_left' hfront
        have hlen2 : (front ++ v).length = fromPos + c + v.length := by
          simp [hfront]
        have hDrop : (front ++ (v ++ (originalOfDiff rs ++ post))).drop (fromPos + c + v.length)
            = originalOfDiff rs ++ post := by
          rw [show front ++ (v ++ (originalOfDiff rs ++ post))
              = (front ++ v) ++ (originalOfDiff rs ++ post) by simp]
          exact List.drop_left' hlen2
        have h3 := ih c (some (fromPos + c + v.length)) front post hfront
        simp only [applyFragmentsToTransaction] at h3 ⊢
        simp only [originalOfDiff, replacementOfDiff, List.append_assoc] at h3 ⊢
        simp only [emitPatches, if_neg hv, List.foldl_cons]
        have happ : applyFragmentToTransaction (front ++ (v ++ (originalOfDiff rs ++ post)))
            (ISuggestionPatch.DELETE (fromPos + c) (fromPos + c + v.length))
            = front ++ (originalOfDiff rs ++ post) := by
          simp only [applyFragmentToTransaction, deleteRange]
          rw [hTake, hDrop]
        rw [happ]
        exact h3
    | added v =>
      by_cases hv : v.length = 0
      · have hv' : v = [] := List.length_eq_zero.mp hv
        subst hv'
        simpa [originalOfDiff, replacementOfDiff, emitPatches] using
          ih c prevTo front post hfront
      · have hTake : (front ++ (originalOfDiff rs ++ post)).take (fromPos + c) = front :=
          List.take_left' hfront
        have hDrop : (front ++ (originalOfDiff rs ++ post)).drop (fromPos + c)
            = originalOfDiff rs ++ post := List.drop_left' hfront
        have h2 : (front ++ v).length = fromPos + (c + v.length) := by
          simp [hfront, Nat.add_assoc]
        have h3 := ih (c + v.length) (some (fromPos + c + v.length)) (front ++ v) post h2
        simp only [applyFragmentsToTransaction] at h3 ⊢
        simp only [originalOfDiff, replacementOfDiff, List.append_assoc] at h3 ⊢
        simp only [emitPatches, if_neg hv, List.foldl_cons]
        have happ : ∀ g, applyFragmentToTransaction (front ++ (originalOfDiff rs ++ post))
            (ISuggestionPatch.INSERT (fromPos + c) (fromPos + c + v.length) v g)
            = front ++ (v ++ (originalOfDiff rs ++ post)) := by
          intro g
          simp only [applyFragmentToTransaction, insertAt]
          rw [hTake, hDrop]
          exact List.append_assoc front v _
        rw [happ]
        simpa using h3

/-- C1: round-trip law.  For every pair of texts, every valid character
diff between them (the diff library is a black box: a valid diff is any
run list whose equal+removed runs concatenate to the current text and
whose equal+added runs concatenate to the replacement), and every base
offset (the length of the document prefix before the replaced region),
applying the patch list produced by
`getReplacementFragmentsFromReplacement`, in order, to a document whose
text in the replaced region is the current text yields the document
whose text there is exactly the replacement text. -/
theorem replacement_fragments_round_trip (pre post : List Char) (runs : List DiffRun) :
    applyFragmentsToTransaction (pre ++ (originalOfDiff runs ++ post))
        (getReplacementFragmentsFromReplacement pre.length runs)
      = pre ++ (replacementOfDiff runs ++ post) := by
  unfold getReplacementFragmentsFromReplacement
  rw [foldl_reduceStep_fragments pre.length runs { fragments := [], currentPos := 0 }]
  simpa using
    emitPatches_roundtrip pre.length runs 0 none pre post (by simp)

/-- Every INSERT patch that `emitPatches` ever emits has
`toPos = fromPos + text.length`. -/
theorem insert_mem_emitPatches (fromPos : Nat) (runs : List DiffRun) :
    ∀ (c : Nat) (prevTo : Option Nat) (nf nt : Nat) (text : List Char) (gm : GetMarks),
      ISuggestionPatch.INSERT nf nt text gm ∈ emitPatches fromPos c prevTo runs →
      nt = nf + text.length := by
  induction runs with
  | nil => intro c prevTo nf nt text gm h; simp [emitPatches] at h
  | cons r rs ih =>
    intro c prevTo nf nt text gm h
    cases r with
    | equal v =>
      by_cases hv : v.length = 0
      · simp only [emitPatches, hv, if_pos rfl] at h
        · exact ih _ _ _ _ _ _ (by simpa [hv] using h)
      · simp only [emitPatches, if_neg hv] at h
        exact ih _ _ _ _ _ _ h
    | removed v =>
      by_cases hv : v.length = 0
      · exact ih _ _ _ _ _ _ (by simpa [emitPatches, hv] using h)
      · simp only [emitPatches, if_neg hv, List.mem_cons] at h
        rcases h with h | h
        · exact absurd h (by simp)
        · exact ih _ _ _ _ _ _ h
    | added v =>
      by_cases hv : v.length = 0
      · exact ih _ _ _ _ _ _ (by simpa [emitPatches, hv] using h)
      · simp only [emitPatches, if_neg hv, List.mem_cons] at h
        rcases h with h | h
        · rcases ISuggestionPatch.INSERT.inj h with ⟨h1, h2, h3, _⟩
          subst h1; subst h3; omega
        · exact ih _ _ _ _ _ _ h

/-- C4, counterexample to the claim as stated: the INSERT patch
produced for the added run of the diff of "cat" against "cats" has
`from = 3` but `to = 4`, so `from == to` fails; the source sets
`newTo = newFrom + patch.count`. -/
theorem insert_from_eq_to_counterexample :
    getReplacementFragmentsFromReplacement 0
        [DiffRun.equal ['c', 'a', 't'], DiffRun.added ['s']]
      = [ISuggestionPatch.INSERT 3 4 ['s'] (GetMarks.spanRange 3 4)]
    ∧ ¬ (∀ p ∈ getReplacementFragmentsFromReplacement 0
            [DiffRun.equal ['c', 'a', 't'], DiffRun.added ['s']],
          ISuggestionPatch.fromPos p = ISuggestionPatch.toPos p) := by
  constructor
  · decide
  · decide

/-- C4 as amended: an added run with characters emits exactly one
INSERT patch, whose `from` is the base offset plus the cursor and whose
`to` is `from` plus the run's character count; every INSERT patch in a
produced patch list satisfies `to = from + text.length`; and the diff
of "cat" against "cats" yields a single INSERT patch with `from = 3`,
`to = 4` and text "s". -/
theorem insert_patch_positions (fromPos : Nat) (runs : List DiffRun)
    (acc : ReduceState) (v : List Char) (hv : v ≠ []) :
    ((reduceStep fromPos acc (DiffRun.added v)).fragments.map
        (fun p => (ISuggestionPatch.fromPos p, ISuggestionPatch.toPos p))
      = acc.fragments.map (fun p => (ISuggestionPatch.fromPos p, ISuggestionPatch.toPos p))
          ++ [(fromPos + acc.currentPos, fromPos + acc.currentPos + v.length)])
    ∧ (∀ nf nt text gm,
        ISuggestionPatch.INSERT nf nt text gm ∈ getReplacementFragmentsFromReplacement fromPos runs →
        nt = nf + text.length)
    ∧ getReplacementFragmentsFromReplacement 0
        [DiffRun.equal ['c', 'a', 't'], DiffRun.added ['s']]
      = [ISuggestionPatch.INSERT 3 4 ['s'] (GetMarks.spanRange 3 4)] := by
  have hv0 : ¬ v.length = 0 := by
    intro h; exact hv (List.length_eq_zero.mp h)
  refine ⟨?_, ?_, by decide⟩
  · cases h : acc.fragments.getLast? with
    | none => simp [reduceStep, hv0, h, ISuggestionPatch.fromPos, ISuggestionPatch.toPos]
    | some prev => simp [reduceStep, hv0, h, ISuggestionPatch.fromPos, ISuggestionPatch.toPos]
  · intro nf nt text gm hmem
    unfold getReplacementFragmentsFromReplacement at hmem
    rw [foldl_reduceStep_fragments fromPos runs { fragments := [], currentPos := 0 }] at hmem
    simp only [List.nil_append] at hmem
    exact insert_mem_emitPatches fromPos runs 0 none nf nt text gm (by simpa using hmem)

/-- Witness for `insert_patch_positions` at a concrete added run. -/
theorem insert_patch_positions_witness :
    (reduceStep 0 { fragments := [], currentPos := 3 } (DiffRun.added ['s'])).fragments.map
        (fun p => (ISuggestionPatch.fromPos p, ISuggestionPatch.toPos p))
      = [(3, 4)] :=
  (insert_patch_positions 0 [] { fragments := [], currentPos := 3 } ['s'] (by decide)).1

/-- C5, counterexample to the claim as stated: for the diff of "abc"
against "bcX" (removed "a", equal "bc", added "X"), the patch before
the INSERT is a DELETE, yet the source chooses the
last-character-before-the-insertion-point mark resolver, because its
`isInsertion` test only compares the previous patch's `to` against the
new `from`, never checking that the previous patch is an insertion nor
requiring equality of positions. -/
theorem mark_policy_spec_counterexample :
    getReplacementFragmentsFromReplacement 0
        [DiffRun.removed ['a'], DiffRun.equal ['b', 'c'], DiffRun.added ['X']]
      = [ISuggestionPatch.DELETE 0 1,
         ISuggestionPatch.INSERT 2 3 ['X'] (GetMarks.lastChar 2)]
    ∧ specMarkPolicy (getReplacementFragmentsFromReplacement 0
        [DiffRun.removed ['a'], DiffRun.equal ['b', 'c'], DiffRun.added ['X']]) = false := by
  constructor
  · decide
  · decide

/-- C5 as amended: an added run's INSERT patch carries the
last-character mark resolver exactly when a previously emitted patch
exists and the last emitted patch's `to` (whatever its type, INSERT or
DELETE) is strictly below this insertion's `from`; in every other case
it carries the resolver reading the marks across the full original
range `[from, to)` at apply time. -/
theorem mark_policy_code_condition (fromPos : Nat) (acc : ReduceState)
    (v : List Char) (hv : v ≠ []) :
    (acc.fragments.getLast? = none →
      (reduceStep fromPos acc (DiffRun.added v)).fragments
        = acc.fragments ++ [ISuggestionPatch.INSERT (fromPos + acc.currentPos)
            (fromPos + acc.currentPos + v.length) v
            (GetMarks.spanRange (fromPos + acc.currentPos)
              (fromPos + acc.currentPos + v.length))])
    ∧ (∀ prev, acc.fragments.getLast? = some prev →
      (reduceStep fromPos acc (DiffRun.added v)).fragments
        = acc.fragments ++ [ISuggestionPatch.INSERT (fromPos + acc.currentPos)
            (fromPos + acc.currentPos + v.length) v
            (if ISuggestionPatch.toPos prev < fromPos + acc.currentPos
             then GetMarks.lastChar (fromPos + acc.currentPos)
             else GetMarks.spanRange (fromPos + acc.currentPos)
               (fromPos + acc.currentPos + v.length))]) := by
  have hv0 : ¬ v.length = 0 := by
    intro h; exact hv (List.length_eq_zero.mp h)
  constructor
  · intro h
    simp [reduceStep, hv0, h]
  · intro prev h
    by_cases hlt : ISuggestionPatch.toPos prev < fromPos + acc.currentPos
    · simp [reduceStep, hv0, h, hlt]
    · simp [reduceStep, hv0, h, hlt]

/-- Witness for `mark_policy_code_condition`: after a DELETE ending at
1, an insertion at 2 takes the last-character resolver. -/
theorem mark_policy_code_condition_witness :
    (reduceStep 0 { fragments := [ISuggestionPatch.DELETE 0 1], currentPos := 2 }
        (DiffRun.added ['X'])).fragments
      = [ISuggestionPatch.DELETE 0 1,
         ISuggestionPatch.INSERT 2 3 ['X'] (GetMarks.lastChar 2)] := by
  have h := (mark_policy_code_condition 0
      { fragments := [ISuggestionPatch.DELETE 0 1], currentPos := 2 } ['X']
      (by decide)).2 (ISuggestionPatch.DELETE 0 1) (by decide)
  simpa using h

/-- C7: in the left-to-right walk of diff runs, an equal run advances
the cursor by its character count and emits nothing; a removed run
emits a DELETE patch from `baseFrom + cursor` to
`baseFrom + cursor + count` and leaves the cursor unchanged; and the
diff of the empty text against the empty text (no runs) yields no
patches. -/
theorem equal_and_removed_run_behaviour (fromPos : Nat) (acc : ReduceState) (v : List Char) :
    (reduceStep fromPos acc (DiffRun.equal v)
        = { acc with currentPos := acc.currentPos + v.length })
    ∧ (v ≠ [] → reduceStep fromPos acc (DiffRun.removed v)
        = { acc with fragments := acc.fragments
            ++ [ISuggestionPatch.DELETE (fromPos + acc.currentPos)
                  (fromPos + acc.currentPos + v.length)] })
    ∧ getReplacementFragmentsFromReplacement fromPos [] = [] := by
  refine ⟨?_, ?_, by simp [getReplacementFragmentsFromReplacement]⟩
  · by_cases hv : v.length = 0
    · simp [reduceStep, hv]
    · simp [reduceStep, hv]
  · intro hv
    have hv0 : ¬ v.length = 0 := by
      intro h; exact hv (List.length_eq_zero.mp h)
    simp [reduceStep, hv0]

/-- Witness for `equal_and_removed_run_behaviour` at a concrete run. -/
theorem equal_and_removed_run_behaviour_witness :
    reduceStep 0 { fragments := [], currentPos := 0 } (DiffRun.removed ['x'])
      = { fragments := [ISuggestionPatch.DELETE 0 1], currentPos := 0 } :=
  (equal_and_removed_run_behaviour 0 { fragments := [], currentPos := 0 } ['x']).2.1
    (by decide)

/-- C2, counterexample to the claim as stated: a RequestSuccess whose
response carries an empty list of validation outputs returns the state
completely unchanged, so an in-flight descriptor present in the state
is NOT cleared and in-flight decorations remain. -/
theorem success_empty_response_counterexample :
    (handleValidationRequestSuccess
        { doc := { text := [], blocks := [] }, time := 11, steps := [] }
        { debug := false, initialThrottle := 100, currentThrottle := 100,
          maxThrottle := 1000,
          decorations := [{ fromPos := 0, toPos := 3, dtype := DecorationType.inflight }],
          currentValidations := [], dirtiedRanges := [], hoverId := none,
          hoverInfo := none, trHistory := [], validationPending := false,
          validationInFlight := some { validationInputs := [], id := 7 },
          error := none }
        { validationOutputs := [], id := 7 }).validationInFlight
      = some { validationInputs := [], id := 7 }
    ∧ (handleValidationRequestSuccess
        { doc := { text := [], blocks := [] }, time := 11, steps := [] }
        { debug := false, initialThrottle := 100, currentThrottle := 100,
          maxThrottle := 1000,
          decorations := [{ fromPos := 0, toPos := 3, dtype := DecorationType.inflight }],
          currentValidations := [], dirtiedRanges := [], hoverId := none,
          hoverInfo := none, trHistory := [], validationPending := false,
          validationInFlight := some { validationInputs := [], id := 7 },
          error := none }
        { validationOutputs := [], id := 7 }).decorations
      = [{ fromPos := 0, toPos := 3, dtype := DecorationType.inflight }] := by
  constructor
  · decide
  · decide

/-- C2 as amended: a RequestSuccess whose response carries at least one
validation output clears the in-flight descriptor and leaves no
in-flight decorations in the returned state; a RequestSuccess with an
empty output list is a complete no-op, returning the state (and its
in-flight descriptor) unchanged. -/
theorem success_nonempty_clears_inflight (tr : Transaction) (state : PluginState)
    (response : ValidationResponse) :
    (response.validationOutputs = [] →
      handleValidationRequestSuccess tr state response = state)
    ∧ (response.validationOutputs ≠ [] →
      (handleValidationRequestSuccess tr state response).validationInFlight = none
      ∧ ∀ d ∈ (handleValidationRequestSuccess tr state response).decorations,
          d.dtype ≠ DecorationType.inflight) := by
  constructor
  · intro h
    simp [handleValidationRequestSuccess, h]
  · intro h
    have hlen : response.validationOutputs.length ≠ 0 := by
      simpa [List.length_eq_zero] using h
    constructor
    · simp [handleValidationRequestSuccess, hlen]
    · intro d hd
      intro hdt
      have hdecs : (handleValidationRequestSuccess tr state response).decorations
          = (getNewDecorationsForCurrentValidations
               (mergeOutputsFromValidationResponse response state.currentValidations
                 state.trHistory)
               state.decorations tr.doc).filter
              (fun d => decide (d ∉ state.decorations.filter
                (fun d => decide (d.dtype = DecorationType.inflight)))) := by
        simp [handleValidationRequestSuccess, hlen]
      rw [hdecs, List.mem_filter] at hd
      rcases hd with ⟨hmem, hnotin⟩
      rw [decide_eq_true_eq] at hnotin
      apply hnotin
      rw [List.mem_filter]
      refine ⟨?_, by simp [hdt]⟩
      simp only [getNewDecorationsForCurrentValidations, List.mem_append,
        List.mem_filter, List.mem_map] at hmem
      rcases hmem with ⟨hmem, _⟩ | ⟨v, _, hv⟩
      · exact hmem
      · exfalso
        rw [← hv] at hdt
        simp at hdt

/-- Witness for `success_nonempty_clears_inflight` on a response with
one output. -/
theorem success_nonempty_clears_inflight_witness :
    (handleValidationRequestSuccess
        { doc := { text := [], blocks := [] }, time := 11, steps := [] }
        { debug := false, initialThrottle := 100, currentThrottle := 100,
          maxThrottle := 1000,
          decorations := [{ fromPos := 0, toPos := 3, dtype := DecorationType.inflight }],
          currentValidations := [], dirtiedRanges := [], hoverId := none,
          hoverInfo := none, trHistory := [], validationPending := false,
          validationInFlight := some { validationInputs := [], id := 7 },
          error := none }
        { validationOutputs := [{ id := "out-1", fromPos := 1, toPos := 2 }],
          id := 7 }).validationInFlight
      = none :=
  ((success_nonempty_clears_inflight
      { doc := { text := [], blocks := [] }, time := 11, steps := [] }
      { debug := false, initialThrottle := 100, currentThrottle := 100,
        maxThrottle := 1000,
        decorations := [{ fromPos := 0, toPos := 3, dtype := DecorationType.inflight }],
        currentValidations := [], dirtiedRanges := [], hoverId := none,
        hoverInfo := none, trHistory := [], validationPending := false,
        validationInFlight := some { validationInputs := [], id := 7 },
        error := none }
      { validationOutputs := [{ id := "out-1", fromPos := 1, toPos := 2 }],
        id := 7 }).2 (by decide)).1

/-- C3: a RequestError records the error message, clears the in-flight
descriptor, and — whenever the failed input's range, mapped through the
history accrued since the request id, survives non-empty — merges the
mapped ranges into the existing dirty ranges via `mergeRanges`; with an
empty intervening history the failed input's (non-empty) range maps to
itself unchanged. -/
theorem error_requeues_failed_ranges (tr : Transaction) (state : PluginState)
    (validationError : ValidationError) :
    ((handleValidationRequestError tr state validationError).error
      = some validationError.message)
    ∧ (handleValidationRequestError tr state validationError).validationInFlight = none
    ∧ (mapRangeThroughTransactions
          [validationInputToRange validationError.validationInput]
          validationError.id state.trHistory ≠ [] →
        (handleValidationRequestError tr state validationError).dirtiedRanges
          = mergeRanges (state.dirtiedRanges
              ++ mapRangeThroughTransactions
                   [validationInputToRange validationError.validationInput]
                   validationError.id state.trHistory))
    ∧ (state.trHistory = [] →
        validationError.validationInput.fromPos < validationError.validationInput.toPos →
        mapRangeThroughTransactions
            [validationInputToRange validationError.validationInput]
            validationError.id state.trHistory
          = [validationInputToRange validationError.validationInput]) := by
  refine ⟨?_, ?_, ?_, ?_⟩
  · simp [handleValidationRequestError]
  · simp [handleValidationRequestError]
  · intro hne
    have hlen : (mapRangeThroughTransactions
        [validationInputToRange validationError.validationInput]
        validationError.id state.trHistory).length ≠ 0 := by
      simpa [List.length_eq_zero] using hne
    simp [handleValidationRequestError, hlen]
  · intro hh hlt
    simp [mapRangeThroughTransactions, hh, mapRangeThroughEditOps,
      validationInputToRange, hlt]

/-- Witness for `error_requeues_failed_ranges`: the spec's scenario —
dirty ranges empty after a RequestStart, an error for input range
`{5,10}` with no intervening edits re-populates the dirty ranges as
exactly `{5,10}`. -/
theorem error_requeues_failed_ranges_witness :
    (handleValidationRequestError
        { doc := { text := [], blocks := [] }, time := 12, steps := [] }
        { debug := false, initialThrottle := 100, currentThrottle := 100,
          maxThrottle := 1000, decorations := [], currentValidations := [],
          dirtiedRanges := [], hoverId := none, hoverInfo := none,
          trHistory := [], validationPending := false,
          validationInFlight := none, error := none }
        { validationInput := { str := ['h', 'e', 'l', 'l', 'o'], fromPos := 5, toPos := 10 },
          id := 10, message := "service unavailable" }).dirtiedRanges
      = [{ fromPos := 5, toPos := 10 }] := by
  have h := (error_requeues_failed_ranges
      { doc := { text := [], blocks := [] }, time := 12, steps := [] }
      { debug := false, initialThrottle := 100, currentThrottle := 100,
        maxThrottle := 1000, decorations := [], currentValidations := [],
        dirtiedRanges := [], hoverId := none, hoverInfo := none,
        trHistory := [], validationPending := false,
        validationInFlight := none, error := none }
      { validationInput := { str := ['h', 'e', 'l', 'l', 'o'], fromPos := 5, toPos := 10 },
        id := 10, message := "service unavailable" }).2.2.1 (by decide)
  rw [h]
  decide

/-- C6: a RequestStart clears the dirty ranges and the pending flag and
records an in-flight descriptor whose inputs are the dirty ranges
expanded to parent-block boundaries, each with its text snapshotted
from the transaction's document, stamped with the transaction's id. -/
theorem request_start_snapshots_inputs (tr : Transaction) (state : PluginState) :
    (handleValidationRequestStart tr state).dirtiedRanges = []
    ∧ (handleValidationRequestStart tr state).validationPending = false
    ∧ (handleValidationRequestStart tr state).validationInFlight
      = some { validationInputs :=
                 (getRangesOfParentBlockNodes state.dirtiedRanges tr.doc).map
                   (fun range =>
                     { str := textBetween tr.doc range.fromPos range.toPos,
                       fromPos := range.fromPos, toPos := range.toPos }),
               id := tr.time } := by
  refine ⟨?_, ?_, ?_⟩ <;> simp [handleValidationRequestStart]

/-- C8: the Typerighter adapter fails on every non-200 response with
the source's message (which spells out the status code) and produces no
outputs; on a 200 response it returns one output per result, keeping
the input's id and offsetting each result's positions by the input's
`from`. -/
theorem adapter_status_handling (input : IValidationInput) (status : Nat)
    (statusText : String) (response : ITypeRighterResponse) :
    (status ≠ 200 →
      createTyperighterAdapter input status statusText response
        = Except.error
            ("Error fetching validations. The server responded with status code "
              ++ toString status ++ ": " ++ statusText)
      ∧ ∀ outs, createTyperighterAdapter input status statusText response
          ≠ Except.ok outs)
    ∧ (status = 200 →
      createTyperighterAdapter input status statusText response
        = Except.ok (response.results.map (fun m =>
            { id := input.id, str := input.str,
              fromPos := input.fromPos + m.fromPos,
              toPos := input.fromPos + m.toPos,
              annotation := m.message,
              category := m.rule.description,
              suggestions := m.suggestedReplacements }))) := by
  constructor
  · intro h
    constructor
    · simp [createTyperighterAdapter, h]
    · intro outs hk
      simp [createTyperighterAdapter, h] at hk
  · intro h
    simp [createTyperighterAdapter, h]

/-- Witness for `adapter_status_handling` at status 404 and at
status 200. -/
theorem adapter_status_handling_witness :
    createTyperighterAdapter
        { id := "input-1", str := "some text", fromPos := 3, toPos := 12 }
        404 "Not Found" { results := [] }
      = Except.error
          "Error fetching validations. The server responded with status code 404: Not Found"
    ∧ createTyperighterAdapter
        { id := "input-1", str := "some text", fromPos := 3, toPos := 12 }
        200 "OK"
        { results := [{ fromPos := 1, toPos := 2, message := "typo",
                        rule := { description := "spelling" },
                        suggestedReplacements := ["sane"] }] }
      = Except.ok
          [{ id := "input-1", str := "some text", fromPos := 4, toPos := 5,
             annotation := "typo", category := "spelling",
             suggestions := ["sane"] }] := by
  constructor
  · have h := ((adapter_status_handling
        { id := "input-1", str := "some text", fromPos := 3, toPos := 12 }
        404 "Not Found" { results := [] }).1 (by decide)).1
    rw [h]
    rfl
  · have h := (adapter_status_handling
        { id := "input-1", str := "some text", fromPos := 3, toPos := 12 }
        200 "OK"
        { results := [{ fromPos := 1, toPos := 2, message := "typo",
                        rule := { description := "spelling" },
                        suggestedReplacements := ["sane"] }] }).2 rfl
    rw [h]
    rfl

/-- C9: no lifecycle action changes the throttle fields — the reducer
never adjusts `initialThrottle`, `currentThrottle` or `maxThrottle`. -/
theorem reducer_preserves_throttle (tr : Transaction) (state : PluginState)
    (action : Action) :
    (validationPluginReducer tr state action).initialThrottle = state.initialThrottle
    ∧ (validationPluginReducer tr state action).currentThrottle = state.currentThrottle
    ∧ (validationPluginReducer tr state action).maxThrottle = state.maxThrottle := by
  cases action with
  | newHoverId hoverId hoverInfo =>
      simp [validationPluginReducer, handleNewHoverId]
  | validationRequestPending =>
      simp [validationPluginReducer, handleValidationRequestPending]
  | validationRequestStart =>
      simp [validationPluginReducer, handleValidationRequestStart]
  | validationRequestSuccess response =>
      refine ⟨?_, ?_, ?_⟩ <;>
        · simp only [validationPluginReducer, handleValidationRequestSuccess]
          split <;> simp
  | validationRequestError validationError =>
      simp [validationPluginReducer, handleValidationRequestError]

/-- C10: a NEW_HOVER_ID action sets `hoverId` and `hoverInfo` to the
action's payload and leaves every other field of the plugin state
untouched. -/
theorem new_hover_id_updates_only_hover (tr : Transaction) (state : PluginState)
    (hoverId : Option String) (hoverInfo : Option StateHoverInfo) :
    validationPluginReducer tr state (Action.newHoverId hoverId hoverInfo)
      = { state with hoverId := hoverId, hoverInfo := hoverInfo } :=
  rfl

end Typerighter
